import Mathlib

/-!
Verification of the IMD loader ingestion pipeline (`ImdLoader/imd_loader.py`).

The pure core of each component is embedded shallowly:
strings are Lean `String`s (working over `String.data : List Char`),
the filesystem, network and database engine are explicit state / oracles,
and the orchestrator is a function from an environment to the full
status-event list produced by consuming the generator to the end.
-/

namespace ImdLoader

/-! ## Name Sanitiser (`sanitise_name`)

Python:
```
sanitised = (str(name).lower().replace(" ", "_").replace("-", "_")
             .replace("&", "and").replace("(", "").replace(")", ""))
sanitised = re.sub(r"_+", "_", sanitised)
return sanitised.strip("_")
```
`str.lower` is modelled per character by `Char.toLower` (basic-latin lowering);
single-character `str.replace` is a map, `replace` by the empty string a filter,
`"&" -> "and"` an expanding rewrite, `re.sub(r"_+", "_")` collapses runs of
underscores, and `strip("_")` drops leading and trailing underscores.
-/

/-- `str.replace(a, b)` for one-character `a`, `b`. -/
def replaceChar (a b : Char) (l : List Char) : List Char :=
  l.map fun c => if c = a then b else c

/-- `str.replace("&", "and")`. -/
def replaceAmp : List Char → List Char
  | [] => []
  | c :: cs => if c = '&' then 'a' :: 'n' :: 'd' :: replaceAmp cs else c :: replaceAmp cs

/-- `re.sub(r"_+", "_", s)`: collapse every run of underscores to a single one. -/
def collapseU : List Char → List Char
  | [] => []
  | [c] => [c]
  | a :: b :: rest =>
    if a = '_' ∧ b = '_' then collapseU (b :: rest) else a :: collapseU (b :: rest)

/-- Drop leading underscores (`str.lstrip("_")`). -/
def ltrimU (l : List Char) : List Char := l.dropWhile (· = '_')

/-- Drop trailing underscores (`str.rstrip("_")`). -/
def rtrimU (l : List Char) : List Char := (ltrimU l.reverse).reverse

/-- `str.strip("_")`. -/
def stripU (l : List Char) : List Char := rtrimU (ltrimU l)

/-- The character-level pipeline of `sanitise_name`, before collapsing/stripping
underscores: lowercase, spaces and hyphens to `_`, `&` to `and`, parentheses
removed (in the source's order). -/
def cleanChars (l : List Char) : List Char :=
  (((replaceAmp (replaceChar '-' '_' (replaceChar ' ' '_' (l.map Char.toLower)))).filter
      (fun c => c ≠ '(')).filter (fun c => c ≠ ')'))

/-- `sanitise_name` on the character list of the input string. -/
def sanitiseList (l : List Char) : List Char :=
  stripU (collapseU (cleanChars l))

/-- `sanitise_name` for a string input (`str(name)` is the identity there). -/
def sanitise_name (s : String) : String := String.mk (sanitiseList s.data)

/-- `sanitise_name` for an integer input: `str(name)` stringifies first. -/
def sanitise_name_int (n : Int) : String := sanitise_name (toString n)

/-! ### Lemmas for the sanitiser -/

theorem toNat_ofNat_valid {n : Nat} (h : n < 55296) : (Char.ofNat n).toNat = n := by
  have hv : n.isValidChar := Or.inl h
  rw [Char.ofNat, dif_pos hv]
  simp [Char.ofNatAux, Char.toNat, UInt32.toNat]

theorem toLower_toLower (c : Char) : c.toLower.toLower = c.toLower := by
  unfold Char.toLower
  by_cases h : c.toNat ≥ 65 ∧ c.toNat ≤ 90
  · rw [if_pos h]
    have h32 : (Char.ofNat (c.toNat + 32)).toNat = c.toNat + 32 :=
      toNat_ofNat_valid (by omega)
    rw [if_neg (by omega)]
  · rw [if_neg h, if_neg h]

/-- A character that every stage of the sanitiser leaves unchanged. -/
def goodChar (c : Char) : Prop :=
  c.toLower = c ∧ c ≠ ' ' ∧ c ≠ '-' ∧ c ≠ '&' ∧ c ≠ '(' ∧ c ≠ ')'

theorem mem_replaceAmp {c : Char} :
    ∀ {l : List Char}, c ∈ replaceAmp l →
      c = 'a' ∨ c = 'n' ∨ c = 'd' ∨ (c ∈ l ∧ c ≠ '&')
  | [], h => by simp [replaceAmp] at h
  | d :: cs, h => by
    by_cases hd : d = '&'
    · rw [replaceAmp, if_pos hd] at h
      simp only [List.mem_cons] at h
      rcases h with h | h | h | h
      · exact Or.inl h
      · exact Or.inr (Or.inl h)
      · exact Or.inr (Or.inr (Or.inl h))
      · rcases mem_replaceAmp h with h | h | h | ⟨hm, hne⟩
        · exact Or.inl h
        · exact Or.inr (Or.inl h)
        · exact Or.inr (Or.inr (Or.inl h))
        · exact Or.inr (Or.inr (Or.inr ⟨List.mem_cons_of_mem _ hm, hne⟩))
    · rw [replaceAmp, if_neg hd] at h
      rcases List.mem_cons.mp h with h | h
      · exact Or.inr (Or.inr (Or.inr ⟨h ▸ List.mem_cons_self _ _, by simpa [h] using hd⟩))
      · rcases mem_replaceAmp h with h | h | h | ⟨hm, hne⟩
        · exact Or.inl h
        · exact Or.inr (Or.inl h)
        · exact Or.inr (Or.inr (Or.inl h))
        · exact Or.inr (Or.inr (Or.inr ⟨List.mem_cons_of_mem _ hm, hne⟩))

theorem goodChar_of_mem_clean {c : Char} {l : List Char}
    (h : c ∈ cleanChars l) : goodChar c := by
  unfold cleanChars at h
  rw [List.mem_filter] at h
  obtain ⟨h, hp2⟩ := h
  rw [List.mem_filter] at h
  obtain ⟨h, hp1⟩ := h
  have hnp1 : c ≠ '(' := by simpa using hp1
  have hnp2 : c ≠ ')' := by simpa using hp2
  rcases mem_replaceAmp h with h | h | h | ⟨hm, hamp⟩
  · subst h; exact ⟨by decide, by decide, by decide, by decide, by decide, by decide⟩
  · subst h; exact ⟨by decide, by decide, by decide, by decide, by decide, by decide⟩
  · subst h; exact ⟨by decide, by decide, by decide, by decide, by decide, by decide⟩
  · unfold replaceChar at hm
    rw [List.mem_map] at hm
    obtain ⟨x, hx, hxc⟩ := hm
    rw [List.mem_map] at hx
    obtain ⟨y, hy, hyx⟩ := hx
    rw [List.mem_map] at hy
    obtain ⟨z, _, hzy⟩ := hy
    have hw : (Char.toLower z).toLower = Char.toLower z := toLower_toLower z
    subst hxc hyx hzy
    refine ⟨?_, ?_, ?_, hamp, hnp1, hnp2⟩ <;>
      by_cases h1 : z.toLower = ' ' <;>
        by_cases h2 : z.toLower = '-' <;>
          simp [h1, h2, hw] <;> decide

theorem map_eq_self_of_fixed {f : Char → Char} :
    ∀ {l : List Char}, (∀ c ∈ l, f c = c) → l.map f = l
  | [], _ => rfl
  | c :: cs, h => by
    rw [List.map_cons, h c (List.mem_cons_self _ _),
      map_eq_self_of_fixed fun d hd => h d (List.mem_cons_of_mem _ hd)]

theorem replaceAmp_eq_self :
    ∀ {l : List Char}, (∀ c ∈ l, c ≠ '&') → replaceAmp l = l
  | [], _ => rfl
  | c :: cs, h => by
    rw [replaceAmp, if_neg (h c (List.mem_cons_self _ _)),
      replaceAmp_eq_self fun d hd => h d (List.mem_cons_of_mem _ hd)]

theorem cleanChars_eq_self {l : List Char} (h : ∀ c ∈ l, goodChar c) :
    cleanChars l = l := by
  unfold cleanChars replaceChar
  have h1 : l.map Char.toLower = l := map_eq_self_of_fixed fun c hc => (h c hc).1
  rw [h1]
  have h2 : (l.map fun c => if c = ' ' then '_' else c) = l :=
    map_eq_self_of_fixed fun c hc => if_neg (h c hc).2.1
  rw [h2]
  have h3 : (l.map fun c => if c = '-' then '_' else c) = l :=
    map_eq_self_of_fixed fun c hc => if_neg (h c hc).2.2.1
  rw [h3]
  have h4 : replaceAmp l = l := replaceAmp_eq_self fun c hc => (h c hc).2.2.2.1
  rw [h4]
  have h5 : l.filter (fun c => c ≠ '(') = l :=
    List.filter_eq_self.mpr fun c hc => by simpa using (h c hc).2.2.2.2.1
  rw [h5]
  exact List.filter_eq_self.mpr fun c hc => by simpa using (h c hc).2.2.2.2.2

theorem mem_collapseU {c : Char} :
    ∀ {l : List Char}, c ∈ collapseU l → c ∈ l
  | [], h => by simpa [collapseU] using h
  | [d], h => by simpa [collapseU] using h
  | a :: b :: rest, h => by
    by_cases hab : a = '_' ∧ b = '_'
    · rw [collapseU, if_pos hab] at h
      exact List.mem_cons_of_mem _ (mem_collapseU h)
    · rw [collapseU, if_neg hab] at h
      rcases List.mem_cons.mp h with h | h
      · exact h ▸ List.mem_cons_self _ _
      · exact List.mem_cons_of_mem _ (mem_collapseU h)

theorem mem_stripU {c : Char} {l : List Char} (h : c ∈ stripU l) : c ∈ l := by
  unfold stripU rtrimU ltrimU at h
  rw [List.mem_reverse] at h
  have h1 := (List.dropWhile_suffix _).subset h
  rw [List.mem_reverse] at h1
  exact (List.dropWhile_suffix _).subset h1

/-- No two adjacent underscores: the invariant established by `collapseU`. -/
def noDD (l : List Char) : Prop :=
  List.Chain' (fun a b => ¬(a = '_' ∧ b = '_')) l

theorem collapseU_cons : ∀ (b : Char) (rest : List Char),
    ∃ t, collapseU (b :: rest) = b :: t
  | _, [] => ⟨[], rfl⟩
  | b, c :: rest => by
    by_cases h : b = '_' ∧ c = '_'
    · obtain ⟨t, ht⟩ := collapseU_cons c rest
      exact ⟨t, by rw [collapseU, if_pos h, ht, h.1, h.2]⟩
    · exact ⟨collapseU (c :: rest), by rw [collapseU, if_neg h]⟩

theorem noDD_collapseU : ∀ l : List Char, noDD (collapseU l)
  | [] => by simp [collapseU, noDD]
  | [c] => by simp [collapseU, noDD]
  | a :: b :: rest => by
    have ih := noDD_collapseU (b :: rest)
    by_cases h : a = '_' ∧ b = '_'
    · rw [collapseU, if_pos h]
      exact ih
    · rw [collapseU, if_neg h]
      obtain ⟨t, ht⟩ := collapseU_cons b rest
      rw [ht] at ih ⊢
      exact List.chain'_cons.mpr ⟨h, ih⟩

theorem collapseU_eq_self : ∀ l : List Char, noDD l → collapseU l = l
  | [], _ => rfl
  | [_], _ => rfl
  | a :: b :: rest, h => by
    obtain ⟨hab, htail⟩ := List.chain'_cons.mp h
    rw [collapseU, if_neg hab, collapseU_eq_self (b :: rest) htail]

theorem noDD_dropWhile {p : Char → Bool} {l : List Char} (h : noDD l) :
    noDD (l.dropWhile p) :=
  List.Chain'.suffix h (List.dropWhile_suffix p)

theorem noDD_reverse {l : List Char} (h : noDD l) : noDD l.reverse :=
  List.chain'_reverse.mpr (h.imp fun _ _ hr hc => hr ⟨hc.2, hc.1⟩)

theorem noDD_stripU {l : List Char} (h : noDD l) : noDD (stripU l) :=
  noDD_reverse (noDD_dropWhile (noDD_reverse (noDD_dropWhile h)))

theorem head?_dropWhile_ne {p : Char → Bool} :
    ∀ {l : List Char} {a : Char}, (l.dropWhile p).head? = some a → p a = false
  | [], _, h => by simp [List.dropWhile] at h
  | c :: cs, a, h => by
    by_cases hc : p c
    · rw [List.dropWhile_cons_of_pos hc] at h
      exact head?_dropWhile_ne h
    · rw [List.dropWhile_cons_of_neg hc] at h
      cases h
      simpa using hc

theorem getLast?_dropWhile {p : Char → Bool} :
    ∀ {l : List Char}, l.dropWhile p ≠ [] → (l.dropWhile p).getLast? = l.getLast?
  | [], h => by simp [List.dropWhile] at h
  | c :: cs, h => by
    by_cases hc : p c
    · rw [List.dropWhile_cons_of_pos hc] at h ⊢
      have hcs : cs ≠ [] := by
        intro he
        rw [he] at h
        simp [List.dropWhile] at h
      rw [getLast?_dropWhile h, List.getLast?_cons]
      cases hx : cs.getLast? with
      | none => exact absurd (List.getLast?_eq_none_iff.mp hx) hcs
      | some x => rfl
    · rw [List.dropWhile_cons_of_neg hc]

theorem ltrimU_eq_self {l : List Char} (h : l.head? ≠ some '_') : ltrimU l = l := by
  cases l with
  | nil => rfl
  | cons c cs =>
    have hc : c ≠ '_' := by
      intro he
      exact h (by rw [he]; rfl)
    unfold ltrimU
    exact List.dropWhile_cons_of_neg (by simpa using hc)

theorem rtrimU_eq_self {l : List Char} (h : l.getLast? ≠ some '_') : rtrimU l = l := by
  unfold rtrimU
  rw [ltrimU_eq_self (by rwa [List.head?_reverse]), List.reverse_reverse]

theorem head?_ltrimU_ne (l : List Char) : (ltrimU l).head? ≠ some '_' := by
  intro h
  have := head?_dropWhile_ne (p := fun c => decide (c = '_')) h
  simp at this

theorem getLast?_stripU_ne (l : List Char) : (stripU l).getLast? ≠ some '_' := by
  unfold stripU rtrimU
  rw [List.getLast?_reverse]
  exact head?_ltrimU_ne _

theorem head?_stripU_ne (l : List Char) : (stripU l).head? ≠ some '_' := by
  unfold stripU rtrimU
  rw [List.head?_reverse]
  by_cases h : ltrimU (ltrimU l).reverse = []
  · rw [h]
    simp
  · unfold ltrimU at h ⊢
    rw [getLast?_dropWhile h, List.getLast?_reverse]
    exact head?_ltrimU_ne l

theorem stripU_stripU (l : List Char) : stripU (stripU l) = stripU l := by
  have h1 : ltrimU (stripU l) = stripU l := ltrimU_eq_self (head?_stripU_ne l)
  unfold stripU
  rw [show ltrimU (rtrimU (ltrimU l)) = rtrimU (ltrimU l) from h1]
  exact rtrimU_eq_self (getLast?_stripU_ne l)

theorem sanitiseList_idem (l : List Char) :
    sanitiseList (sanitiseList l) = sanitiseList l := by
  have hgood : ∀ c ∈ sanitiseList l, goodChar c := fun c hc =>
    goodChar_of_mem_clean (mem_collapseU (mem_stripU hc))
  have h1 : cleanChars (sanitiseList l) = sanitiseList l := cleanChars_eq_self hgood
  have h2 : collapseU (sanitiseList l) = sanitiseList l :=
    collapseU_eq_self _ (noDD_stripU (noDD_collapseU (cleanChars l)))
  show stripU (collapseU (cleanChars (sanitiseList l))) = sanitiseList l
  rw [h1, h2]
  exact stripU_stripU _

/-! ### The named transformation stages, in the source's order -/

/-- Stage 1 after stringifying: `str.lower()`. -/
def lowerStage (l : List Char) : List Char := l.map Char.toLower

/-- Stage 2: `.replace(" ", "_")`. -/
def spaceStage : List Char → List Char := replaceChar ' ' '_'

/-- Stage 3: `.replace("-", "_")`. -/
def hyphenStage : List Char → List Char := replaceChar '-' '_'

/-- Stage 4: `.replace("&", "and")`. -/
def ampStage : List Char → List Char := replaceAmp

/-- Stage 5: `.replace("(", "").replace(")", "")`. -/
def parenStage (l : List Char) : List Char :=
  (l.filter (fun c => c ≠ '(')).filter (fun c => c ≠ ')')

/-! ### Claim theorems for the sanitiser -/

/-- C3: the Name Sanitiser is idempotent: for every input string (or, after
stringification, integer) `x`, `sanitise_name (sanitise_name x) = sanitise_name x`. -/
theorem sanitise_name_idempotent :
    (∀ s : String, sanitise_name (sanitise_name s) = sanitise_name s) ∧
      (∀ n : Int, sanitise_name (sanitise_name_int n) = sanitise_name_int n) := by
  constructor
  · intro s
    exact congrArg String.mk (sanitiseList_idem s.data)
  · intro n
    exact congrArg String.mk (sanitiseList_idem (toString n).data)

/-- C4: `sanitise_name` applies its transformations in the stated order
(stringify, lowercase, spaces and hyphens to underscore, ampersand to `and`,
strip parentheses, collapse underscore runs, trim leading/trailing underscores),
is a total function, and maps `"Income (Rank)"` to `"income_rank"`,
`"Health & Disability"` to `"health_and_disability"`, and `"  a -- b  "` to
`"a_b"`. -/
theorem sanitise_name_stages :
    (∀ s : String,
        sanitise_name s =
          String.mk
            (stripU (collapseU (parenStage
              (ampStage (hyphenStage (spaceStage (lowerStage s.data)))))))) ∧
      (∀ n : Int, sanitise_name_int n = sanitise_name (toString n)) ∧
      sanitise_name "Income (Rank)" = "income_rank" ∧
      sanitise_name "Health & Disability" = "health_and_disability" ∧
      sanitise_name "  a -- b  " = "a_b" :=
  ⟨fun _ => rfl, fun _ => rfl, by decide, by decide, by decide⟩

/-! ## Link Extractor (`get_download_links`)

Python (per attachment section, after locating the primary `govuk-link`):
```
if not link or "href" not in link.attrs: continue
href = str(link["href"])
if not (href.endswith(".xlsx") or href.endswith(".csv")): continue
if href.startswith("/media/"): href = BASE_URL + href
elif not href.startswith("http"): continue
files.append({"url": href, "filename": href.split("/")[-1]})
```
The HTTP fetch and the HTML parser are external collaborators; the parsed page
is modelled as the ordered list of attachment sections, each reduced to the
`href` of its primary link when one is present (`Option String`).
Python's `str.startswith`, `str.endswith` and `str.split("/")` are modelled
over `String.data`.
-/

/-- Is the first list a prefix of the second? (`str.startswith` on `List Char`.) -/
def isPrefixList : List Char → List Char → Bool
  | [], _ => true
  | _ :: _, [] => false
  | p :: ps, c :: cs => (p = c) && isPrefixList ps cs

/-- Python `s.startswith(p)`. -/
def pyStartsWith (s p : String) : Bool := isPrefixList p.data s.data

/-- Python `s.endswith(p)`. -/
def pyEndsWith (s p : String) : Bool := isPrefixList p.data.reverse s.data.reverse

/-- Python `s.split("/")` (split on every slash; never returns an empty list). -/
def splitSlash : List Char → List (List Char)
  | [] => [[]]
  | c :: cs =>
    match splitSlash cs, decide (c = '/') with
    | r, true => [] :: r
    | [], false => [[c]]
    | h :: t, false => (c :: h) :: t

/-- Python `s.split("/")[-1]`: the last path segment. -/
def lastSegment (s : String) : String := String.mk ((splitSlash s.data).getLastD [])

/-- The fixed asset-host base URL. -/
def BASE_URL : String := "https://assets.publishing.service.gov.uk"

/-- A Download Descriptor: `{"url": ..., "filename": ...}`. -/
structure FileInfo where
  url : String
  filename : String
deriving DecidableEq

/-- One attachment candidate of the loop body of `get_download_links`:
`none` means the candidate is skipped (`continue`). -/
def linkFile (href : String) : Option FileInfo :=
  if !(pyEndsWith href ".xlsx" || pyEndsWith href ".csv") then none
  else if pyStartsWith href "/media/" then
    let h := BASE_URL ++ href
    some ⟨h, lastSegment h⟩
  else if !(pyStartsWith href "http") then none
  else some ⟨href, lastSegment href⟩

/-- `get_download_links` over the parsed page: one `Option String` per
attachment section (the primary link's href, when present). -/
def get_download_links (attachments : List (Option String)) : List FileInfo :=
  attachments.filterMap fun l => l.bind linkFile

/-- An absolute HTTP(S) URL in the sense of the specification's words. -/
def isAbsoluteHttpUrl (href : String) : Bool :=
  pyStartsWith href "http://" || pyStartsWith href "https://"

/-- The spec's description of the candidate filter: keep `.xlsx`/`.csv` targets
that are relative media paths (prefixed with the asset host) or absolute
HTTP(S) URLs; discard every other candidate. -/
def linkFileSpec (href : String) : Option FileInfo :=
  if pyEndsWith href ".xlsx" || pyEndsWith href ".csv" then
    if pyStartsWith href "/media/" then
      let h := BASE_URL ++ href
      some ⟨h, lastSegment h⟩
    else if isAbsoluteHttpUrl href then some ⟨href, lastSegment href⟩
    else none
  else none

/-- The spec-described Link Extractor output. -/
def get_download_links_spec (attachments : List (Option String)) : List FileInfo :=
  attachments.filterMap fun l => l.bind linkFileSpec

/-- The amended candidate filter: non-media targets are kept exactly when they
start with the literal prefix `"http"` (which includes `https://...`, but also
any other target beginning with those four characters). -/
def linkFileAmended (href : String) : Option FileInfo :=
  if pyEndsWith href ".xlsx" || pyEndsWith href ".csv" then
    if pyStartsWith href "/media/" then
      let h := BASE_URL ++ href
      some ⟨h, lastSegment h⟩
    else if pyStartsWith href "http" then some ⟨href, lastSegment href⟩
    else none
  else none

/-- The amended Link Extractor output. -/
def get_download_links_amended (attachments : List (Option String)) : List FileInfo :=
  attachments.filterMap fun l => l.bind linkFileAmended

/-- C5 counterexample: the candidate `"httpx.csv"` is an attachment primary
link ending in `.csv` that is neither a relative media path nor an absolute
HTTP(S) URL, so by the claim it must be discarded — but the code keeps it,
because it only tests for the literal prefix `"http"`. -/
theorem get_download_links_keeps_non_absolute :
    get_download_links [some "httpx.csv"] =
        [{ url := "httpx.csv", filename := "httpx.csv" }] ∧
      isAbsoluteHttpUrl "httpx.csv" = false ∧
      pyStartsWith "httpx.csv" "/media/" = false ∧
      (pyEndsWith "httpx.csv" ".xlsx" || pyEndsWith "httpx.csv" ".csv") = true ∧
      get_download_links_spec [some "httpx.csv"] = [] := by
  refine ⟨?_, by decide, by decide, by decide, ?_⟩ <;> decide

theorem linkFile_eq_amended (href : String) : linkFile href = linkFileAmended href := by
  unfold linkFile linkFileAmended
  cases h1 : (pyEndsWith href ".xlsx" || pyEndsWith href ".csv") <;>
    cases h2 : pyStartsWith href "/media/" <;>
      cases h3 : pyStartsWith href "http" <;> simp [h1, h2, h3]

/-- C5 (amended): for every parsed page, the Link Extractor's output is exactly
the attachment primary links whose target ends in `.xlsx` or `.csv`, with
relative `/media/` paths prefixed by the asset-host base URL and targets
beginning with the literal prefix `"http"` kept as-is; every other candidate is
discarded, each filename is the last path segment of the (possibly normalized)
URL, and page order is preserved (both sides traverse the page in order). -/
theorem get_download_links_correct :
    (∀ attachments : List (Option String),
        get_download_links attachments = get_download_links_amended attachments) ∧
      (∀ (attachments : List (Option String)) (f : FileInfo),
        f ∈ get_download_links attachments → f.filename = lastSegment f.url) := by
  constructor
  · intro attachments
    unfold get_download_links get_download_links_amended
    have he : (fun l : Option String => l.bind linkFile) =
        fun l : Option String => l.bind linkFileAmended := by
      funext l
      cases l with
      | none => rfl
      | some href => simpa using linkFile_eq_amended href
    rw [he]
  · intro attachments f hf
    unfold get_download_links at hf
    rw [List.mem_filterMap] at hf
    obtain ⟨l, _, hl⟩ := hf
    cases l with
    | none => simp at hl
    | some href =>
      replace hl : linkFile href = some f := hl
      unfold linkFile at hl
      cases h1 : (pyEndsWith href ".xlsx" || pyEndsWith href ".csv") <;>
        rw [h1] at hl
      · simp at hl
      · cases h2 : pyStartsWith href "/media/" <;> rw [h2] at hl
        · cases h3 : pyStartsWith href "http" <;> rw [h3] at hl
          · simp at hl
          · simp only [Bool.not_true, if_false, if_neg] at hl
            cases hl
            rfl
        · simp only [if_true] at hl
          cases hl
          rfl

/-! ## File Fetcher (`download_file_gen`)

Python, per descriptor in order:
```
file_path = output_dir / filename
if file_path.exists(): yield ("exists", file_path); continue
try:
    response = requests.get(url, stream=True); response.raise_for_status()
    ... write chunks ...
    yield ("downloaded", file_path)
except Exception: yield ("failed", file_path)
```
The directory is modelled by the list of filenames it contains, the network by
an oracle `net : url → Bool` (does the streamed GET + write succeed?). Each
step of the run records the event `(status, filename)` together with the
network requests issued for that descriptor, and threads the directory state
(a successful download writes the file). -/

/-- One iteration of the fetch loop: `(event, network calls, directory after)`. -/
def fetchOne (net : String → Bool) (fs : List String) (f : FileInfo) :
    (String × String) × List String × List String :=
  if f.filename ∈ fs then (("exists", f.filename), [], fs)
  else if net f.url then (("downloaded", f.filename), [f.url], fs ++ [f.filename])
  else (("failed", f.filename), [f.url], fs)

/-- The fully-consumed fetch generator: the list of
`(event, network calls of that step)` pairs, and the final directory. -/
def download_file_gen (net : String → Bool) :
    List FileInfo → List String →
      List ((String × String) × List String) × List String
  | [], fs => ([], fs)
  | f :: rest, fs =>
    let s := fetchOne net fs f
    let r := download_file_gen net rest s.2.2
    ((s.1, s.2.1) :: r.1, r.2)

theorem fetchOne_fs_mono (net : String → Bool) (fs : List String) (f : FileInfo) :
    fs ⊆ (fetchOne net fs f).2.2 := by
  unfold fetchOne
  by_cases h1 : f.filename ∈ fs
  · rw [if_pos h1]
    exact List.Subset.refl fs
  · rw [if_neg h1]
    by_cases h2 : net f.url
    · rw [if_pos h2]
      exact List.subset_append_left _ _
    · rw [if_neg h2]
      exact List.Subset.refl fs

/-- C6: for every descriptor `D` whose filename already exists in the output
directory at the start of the run, the File Fetcher yields the status
`"exists"` for `D` and performs no network call for `D` — a re-run never
re-downloads an existing file. -/
theorem download_file_gen_skips_existing :
    ∀ (files : List FileInfo) (fs : List String) (net : String → Bool) (i : Nat),
      i < files.length →
      (files.getD i { url := "", filename := "" }).filename ∈ fs →
      (download_file_gen net files fs).1.getD i (("", ""), ([] : List String)) =
        (("exists", (files.getD i { url := "", filename := "" }).filename), [])
  | [], _, _, i, hi, _ => absurd hi (by simp)
  | f :: rest, fs, net, 0, _, hmem => by
    simp only [List.getD_cons_zero] at hmem ⊢
    simp [download_file_gen, fetchOne, hmem]
  | f :: rest, fs, net, i + 1, hi, hmem => by
    simp only [List.getD_cons_succ] at hmem ⊢
    unfold download_file_gen
    simp only [List.getD_cons_succ]
    exact download_file_gen_skips_existing rest _ net i
      (by simpa using Nat.lt_of_succ_lt_succ hi)
      (fetchOne_fs_mono net fs f hmem)

/-- Witness for C6 at a concrete run: a directory already containing
`"a.csv"` makes the fetcher yield `"exists"` with no network request. -/
theorem download_file_gen_skips_existing_witness :
    (download_file_gen (fun _ => true)
        [{ url := "https://h/a.csv", filename := "a.csv" }] ["a.csv"]).1.getD 0
        (("", ""), ([] : List String)) =
      (("exists", "a.csv"), []) :=
  download_file_gen_skips_existing
    [{ url := "https://h/a.csv", filename := "a.csv" }] ["a.csv"] (fun _ => true) 0
    (by decide) (by decide)

/-! ## Table Extractor (`process_excel_file`, `process_csv_file`)

The spreadsheet-parsing library is an external collaborator: a workbook is the
ordered list of its sheets, each carrying its name and the result of parsing
its grid (`none` when `pd.read_excel` fails for that sheet); a failed
`pd.ExcelFile` open is `none` for the whole workbook. A parsed grid is its
column names and rows, so `len(df.columns)` is `cols.length` and `len(df)` is
`rows.length`. -/

/-- A parsed tabular grid (a `pandas` DataFrame's shape and contents). -/
structure Grid where
  cols : List String
  rows : List (List String)
deriving DecidableEq

/-- One sheet of a workbook: its name, and its parse result. -/
structure Sheet where
  name : String
  parse : Option Grid
deriving DecidableEq

/-- The sheet loop of `process_excel_file`:
skip `"Notes"`, skip parse failures, skip empty grids, else yield
`(schema, table, df)` with sanitised names. -/
def sheetsLoop (stem : String) : List Sheet → List (String × String × Grid)
  | [] => []
  | sh :: rest =>
    if sh.name = "Notes" then sheetsLoop stem rest
    else
      match sh.parse with
      | none => sheetsLoop stem rest
      | some df =>
        if df.cols.length = 0 ∨ df.rows.length = 0 then sheetsLoop stem rest
        else (sanitise_name stem, sanitise_name sh.name, df) :: sheetsLoop stem rest

/-- `process_excel_file`, fully consumed: `workbook` is the `pd.ExcelFile`
open result for the file, `stem` its filename stem. A failed open yields
nothing. -/
def process_excel_file (workbook : Option (List Sheet)) (stem : String) :
    List (String × String × Grid) :=
  match workbook with
  | none => []
  | some sheets => sheetsLoop stem sheets

/-- `process_csv_file`, fully consumed: `parsed` is the `pd.read_csv` result. -/
def process_csv_file (parsed : Option Grid) (stem : String) :
    List (String × String × Grid) :=
  match parsed with
  | none => []
  | some df =>
    if df.cols.length = 0 ∨ df.rows.length = 0 then []
    else [(sanitise_name stem, sanitise_name stem, df)]

/-- The spec's description of which sheets produce a Tabular Unit: not named
`"Notes"` (exact match), parsed successfully, and non-empty in both dimensions. -/
def sheetYields (sh : Sheet) : Bool :=
  sh.name ≠ "Notes" &&
    match sh.parse with
    | none => false
    | some df => !(df.cols.length = 0 || df.rows.length = 0)

/-- The unit a yielding sheet produces. -/
def sheetUnit (stem : String) (sh : Sheet) : String × String × Grid :=
  (sanitise_name stem, sanitise_name sh.name,
    (sh.parse).getD { cols := [], rows := [] })

theorem sheetsLoop_eq_filter (stem : String) :
    ∀ sheets : List Sheet,
      sheetsLoop stem sheets = (sheets.filter sheetYields).map (sheetUnit stem)
  | [] => rfl
  | sh :: rest => by
    by_cases hn : sh.name = "Notes"
    · rw [sheetsLoop, if_pos hn]
      have : sheetYields sh = false := by simp [sheetYields, hn]
      rw [List.filter_cons_of_neg (by simp [this]), sheetsLoop_eq_filter stem rest]
    · rw [sheetsLoop, if_neg hn]
      cases hp : sh.parse with
      | none =>
        have : sheetYields sh = false := by simp [sheetYields, hp]
        rw [List.filter_cons_of_neg (by simp [this]), sheetsLoop_eq_filter stem rest]
      | some df =>
        show (if df.cols.length = 0 ∨ df.rows.length = 0 then sheetsLoop stem rest
          else (sanitise_name stem, sanitise_name sh.name, df) :: sheetsLoop stem rest) = _
        by_cases he : df.cols.length = 0 ∨ df.rows.length = 0
        · rw [if_pos he]
          have : sheetYields sh = false := by
            simp only [sheetYields, hp]
            rcases he with he | he <;> simp [he]
          rw [List.filter_cons_of_neg (by simp [this]), sheetsLoop_eq_filter stem rest]
        · rw [if_neg he]
          have hy : sheetYields sh = true := by
            simp only [sheetYields, hp]
            push_neg at he
            simp [hn, he.1, he.2]
          rw [List.filter_cons_of_pos hy, List.map_cons,
            sheetsLoop_eq_filter stem rest]
          have hu : sheetUnit stem sh = (sanitise_name stem, sanitise_name sh.name, df) := by
            simp [sheetUnit, hp]
          rw [hu]

/-- C7: the spreadsheet Table Extractor yields one Tabular Unit per sheet in
file order, skipping sheets literally named `"Notes"`, sheets whose parse
fails, and sheets whose grid has zero rows or zero columns; each unit's table
name is the sanitised sheet name and its schema name is the sanitised file
stem; and a workbook with sheets `["Notes", "Data1", "Data2"]` where `"Data2"`
is empty yields exactly one unit, for `"Data1"`. -/
theorem process_excel_file_correct :
    (∀ (sheets : List Sheet) (stem : String),
        process_excel_file (some sheets) stem =
          (sheets.filter sheetYields).map (sheetUnit stem)) ∧
      (∀ stem : String, process_excel_file none stem = []) ∧
      (∀ (stem notesParse : String) (g : Grid),
        g.cols.length ≠ 0 → g.rows.length ≠ 0 →
        process_excel_file
            (some [{ name := "Notes", parse := some { cols := [notesParse], rows := [[notesParse]] } },
                   { name := "Data1", parse := some g },
                   { name := "Data2", parse := some { cols := [], rows := [] } }])
            stem =
          [(sanitise_name stem, sanitise_name "Data1", g)]) := by
  refine ⟨fun sheets stem => sheetsLoop_eq_filter stem sheets, fun _ => rfl, ?_⟩
  intro stem notesParse g hc hr
  show sheetsLoop stem _ = _
  rw [sheetsLoop, if_pos rfl, sheetsLoop,
    if_neg ((by decide : ¬("Data1" : String) = "Notes"))]
  show (if g.cols.length = 0 ∨ g.rows.length = 0 then _ else _) = _
  rw [if_neg (by simp [hc, hr]), sheetsLoop,
    if_neg ((by decide : ¬("Data2" : String) = "Notes"))]
  show (_ :: (if ([] : List String).length = 0 ∨ ([] : List (List String)).length = 0
    then sheetsLoop stem [] else _)) = _
  rw [if_pos (by simp), sheetsLoop]

/-- Witness for C7's conditional example at a concrete workbook. -/
theorem process_excel_file_correct_witness :
    process_excel_file
        (some [{ name := "Notes", parse := some { cols := ["n"], rows := [["n"]] } },
               { name := "Data1", parse := some { cols := ["A Col"], rows := [["v"]] } },
               { name := "Data2", parse := some { cols := [], rows := [] } }])
        "IMD File-1" =
      [(sanitise_name "IMD File-1", sanitise_name "Data1",
        { cols := ["A Col"], rows := [["v"]] })] :=
  process_excel_file_correct.2.2 "IMD File-1" "n"
    { cols := ["A Col"], rows := [["v"]] } (by decide) (by decide)

/-! ## Database Loader (`load_to_duckdb`)

Python:
```
try:
    con = duckdb.connect(str(db_path))
    con.execute(f"CREATE SCHEMA IF NOT EXISTS {schema_name}")
    con.execute(f"CREATE OR REPLACE TABLE {schema_name}.{table_name} AS SELECT * FROM df")
    con.close()
    return True
except Exception:
    return False
```
The database engine is an external collaborator; its documented surface
(`CREATE SCHEMA IF NOT EXISTS`, `CREATE OR REPLACE TABLE ... AS SELECT *`)
is modelled on a state of schemas plus an association of `(schema, table)`
pairs to grids, with replace semantics. Whether each `execute` raises is an
oracle (`LoadOracle`), so a failed statement leaves the function returning
`False` with the state as the engine left it. -/

/-- The database state: existing schemas, and the loaded tables. -/
structure DB where
  schemas : List String
  tables : List ((String × String) × Grid)
deriving DecidableEq

/-- `CREATE SCHEMA IF NOT EXISTS s`. -/
def createSchemaIfAbsent (db : DB) (s : String) : DB :=
  if s ∈ db.schemas then db else { db with schemas := db.schemas ++ [s] }

/-- `CREATE OR REPLACE TABLE s.t AS SELECT * FROM df`: drop any previous
contents of `(s, t)` and install the grid as the table's full contents. -/
def createOrReplaceTable (db : DB) (s t : String) (g : Grid) : DB :=
  { db with tables := (db.tables.filter fun e => e.1 ≠ (s, t)) ++ [((s, t), g)] }

/-- Whether each of the two SQL statements executes without raising. -/
structure LoadOracle where
  schemaOk : String → Bool
  tableOk : String → String → Bool

/-- `load_to_duckdb`: returns `(success, database state afterwards)`. -/
def load_to_duckdb (o : LoadOracle) (schema_name table_name : String) (df : Grid)
    (db : DB) : Bool × DB :=
  if o.schemaOk schema_name then
    let db1 := createSchemaIfAbsent db schema_name
    if o.tableOk schema_name table_name then
      (true, createOrReplaceTable db1 schema_name table_name df)
    else (false, db1)
  else (false, db)

/-- The table contents the database currently holds for `(s, t)`. -/
def DB.lookup (db : DB) (s t : String) : Option Grid :=
  (db.tables.filter fun e => e.1 = (s, t)).getLast?.map Prod.snd

theorem createSchemaIfAbsent_mem (db : DB) (s : String) :
    s ∈ (createSchemaIfAbsent db s).schemas := by
  unfold createSchemaIfAbsent
  by_cases h : s ∈ db.schemas
  · rwa [if_pos h]
  · rw [if_neg h]
    simp

theorem createSchemaIfAbsent_of_mem {db : DB} {s : String}
    (h : s ∈ db.schemas) : createSchemaIfAbsent db s = db := if_pos h

theorem createOrReplaceTable_idem (db : DB) (s t : String) (g : Grid) :
    createOrReplaceTable (createOrReplaceTable db s t g) s t g =
      createOrReplaceTable db s t g := by
  unfold createOrReplaceTable
  simp only [List.filter_append, List.filter_filter]
  congr 1
  have h1 : (List.filter (fun e => decide (e.1 ≠ (s, t))) [((s, t), g)]) =
      ([] : List ((String × String) × Grid)) := by simp
  rw [h1, List.append_nil]
  refine congrArg (· ++ [((s, t), g)]) (List.filter_congr fun e _ => ?_)
  cases h : decide (e.1 ≠ (s, t)) <;> simp [h]

theorem load_to_duckdb_state_idem (o : LoadOracle) (s t : String) (g : Grid)
    (db : DB) :
    (load_to_duckdb o s t g (load_to_duckdb o s t g db).2).2 =
      (load_to_duckdb o s t g db).2 := by
  unfold load_to_duckdb
  by_cases h1 : o.schemaOk s
  · by_cases h2 : o.tableOk s t
    · simp only [if_pos h1, if_pos h2]
      rw [createSchemaIfAbsent_of_mem
        (show s ∈ (createOrReplaceTable (createSchemaIfAbsent db s) s t g).schemas from
          createSchemaIfAbsent_mem db s)]
      exact createOrReplaceTable_idem _ s t g
    · simp only [if_pos h1, if_neg h2]
      rw [createSchemaIfAbsent_of_mem (createSchemaIfAbsent_mem db s)]
  · simp only [if_neg h1]

/-- C2: loading the same Tabular Unit `(schema, table, grid)` twice via the
Database Loader leaves the database in exactly the state of loading it once —
the load replaces the table's contents rather than appending — whatever the
engine oracle does; in particular the stored contents and hence the row count
for that table are those of a single load. -/
theorem load_to_duckdb_idempotent (o : LoadOracle) (s t : String) (g : Grid)
    (db : DB) :
    (load_to_duckdb o s t g (load_to_duckdb o s t g db).2).2 =
        (load_to_duckdb o s t g db).2 ∧
      (load_to_duckdb o s t g (load_to_duckdb o s t g db).2).2.lookup s t =
        (load_to_duckdb o s t g db).2.lookup s t :=
  ⟨load_to_duckdb_state_idem o s t g db,
    congrArg (fun d => DB.lookup d s t) (load_to_duckdb_state_idem o s t g db)⟩

/-! ## Pipeline Orchestrator (`imd_data_loader`)

The orchestrator is modelled as a function from an environment — the outcome
of the link extraction (`Except` carries the `ExtractionError` message), the
initial directory contents, the network oracle, the per-file workbook / CSV
parse results, the database-engine oracle, the (absolute) database path
string, and the initial database — to the complete list of status events
yielded by a full consumption of the generator, together with the final
database state. Status dictionaries become one constructor per event shape.
-/

/-- `pathlib.PurePath.suffix` on a filename: the extension from the last dot,
empty when there is no dot, the dot is the first character, or the dot is the
last character. -/
def path_suffix_list (cs : List Char) : List Char :=
  let pre := cs.reverse.takeWhile fun c => c ≠ '.'
  if pre.length = cs.length then []
  else if pre.length = 0 then []
  else if pre.length + 1 = cs.length then []
  else '.' :: pre.reverse

/-- `Path(name).suffix`. -/
def path_suffix (s : String) : String := String.mk (path_suffix_list s.data)

/-- `Path(name).stem`: the filename with its suffix removed. -/
def path_stem (s : String) : String :=
  String.mk (s.data.take (s.data.length - (path_suffix_list s.data).length))

/-- A status dictionary yielded by `imd_data_loader`, one constructor per
shape (the summary events' human-readable `message` strings, being derived
from the counts they accompany, are not carried separately). -/
inductive Event where
  | extracting (msg : String)
  | error (msg : String)
  | downloadSummary (totalFiles : Nat)
  | download (status : String) (file : String)
  | loadSummary (totalFiles : Nat)
  | processing (file : String)
  | loaded (file : String) (table : String) (rows : Nat)
  | fileComplete (file : String) (tablesLoaded : Nat)
  | complete (totalTables : Nat) (database : String)
deriving DecidableEq

/-- The `stage` field of the yielded dictionary. -/
def Event.stage : Event → String
  | .extracting _ => "extracting"
  | .error _ => "error"
  | .downloadSummary _ => "downloading"
  | .download _ _ => "downloading"
  | .loadSummary _ => "loading"
  | .processing _ => "loading"
  | .loaded _ _ _ => "loading"
  | .fileComplete _ _ => "loading"
  | .complete _ _ => "complete"

/-- The `file` field of the yielded dictionary, when present. -/
def Event.fileOf : Event → Option String
  | .download _ f => some f
  | .processing f => some f
  | .loaded f _ _ => some f
  | .fileComplete f _ => some f
  | _ => none

/-- Does the event match the loaded-table shape (`status: "loaded"`)? -/
def isLoadedEvent : Event → Bool
  | .loaded _ _ _ => true
  | _ => false

/-- Does the event match the per-file `status: "processing"` shape? -/
def isProcessingEvent : Event → Bool
  | .processing _ => true
  | _ => false

/-- Everything outside the orchestrator that one full run consumes. -/
structure Env where
  links : Except String (List FileInfo)
  dirContents : List String
  net : String → Bool
  workbook : String → Option (List Sheet)
  csvParse : String → Option Grid
  oracle : LoadOracle
  dbPath : String
  db0 : DB

/-- The suffix dispatch of the loading loop: the Tabular Units the matching
Table Extractor yields for a local file, or `none` for the `continue` branch. -/
def unitsFor (env : Env) (fname : String) : Option (List (String × String × Grid)) :=
  if path_suffix fname = ".xlsx" then
    some (process_excel_file (env.workbook fname) (path_stem fname))
  else if path_suffix fname = ".csv" then
    some (process_csv_file (env.csvParse fname) (path_stem fname))
  else none

/-- The inner loop over one file's Tabular Units: loads each into the
database, and on success emits a `loaded` event and counts it; returns
`(events, tables_loaded, database)`. -/
def loadUnits (o : LoadOracle) (fname : String) :
    List (String × String × Grid) → DB → List Event × Nat × DB
  | [], db => ([], 0, db)
  | u :: rest, db =>
    let r := load_to_duckdb o u.1 u.2.1 u.2.2 db
    let k := loadUnits o fname rest r.2
    if r.1 then
      (Event.loaded fname (u.1 ++ "." ++ u.2.1) u.2.2.rows.length :: k.1,
        k.2.1 + 1, k.2.2)
    else k

/-- The loading loop over `data_files`: per file a `processing` event, the
matching extractor's units loaded one by one, then a per-file `complete`
event with its table count (skipped, like the loads, when the suffix matches
neither extractor); returns `(events, total_tables, database)`. -/
def loadLoop (env : Env) : List String → DB → List Event × Nat × DB
  | [], db => ([], 0, db)
  | fname :: rest, db =>
    match unitsFor env fname with
    | none =>
      let k := loadLoop env rest db
      (Event.processing fname :: k.1, k.2.1, k.2.2)
    | some units =>
      let u := loadUnits env.oracle fname units db
      let k := loadLoop env rest u.2.2
      (Event.processing fname :: (u.1 ++ Event.fileComplete fname u.2.1 :: k.1),
        u.2.1 + k.2.1, k.2.2)

/-- `data_files` as accumulated by the download loop: every yielded file path
whose suffix is `.xlsx` or `.csv`, whatever its download status. -/
def dataFilesOf (env : Env) (files : List FileInfo) : List String :=
  ((download_file_gen env.net files env.dirContents).1.map fun r => r.1.2).filter
    fun n => path_suffix n = ".xlsx" || path_suffix n = ".csv"

/-- One fully-consumed run of `imd_data_loader`: the event list and the final
database state. -/
def imd_data_loader (env : Env) : List Event × DB :=
  match env.links with
  | .error msg =>
    ([Event.extracting "Fetching download links", Event.error msg], env.db0)
  | .ok files =>
    let d := download_file_gen env.net files env.dirContents
    let dEvents := d.1.map fun r => Event.download r.1.1 r.1.2
    let dataFiles := dataFilesOf env files
    let l := loadLoop env dataFiles env.db0
    (Event.extracting "Fetching download links" ::
        Event.downloadSummary files.length ::
        (dEvents ++ Event.loadSummary dataFiles.length ::
          (l.1 ++ [Event.complete l.2.1 env.dbPath])),
      l.2.2)

/-! ### Structure lemmas for the orchestrator -/

/-- Did both SQL statements of a load succeed? (The loader's success bit.) -/
def succUnit (o : LoadOracle) (u : String × String × Grid) : Bool :=
  o.schemaOk u.1 && o.tableOk u.1 u.2.1

/-- The `loaded` event a successfully loaded unit produces. -/
def mkLoaded (fname : String) (u : String × String × Grid) : Event :=
  Event.loaded fname (u.1 ++ "." ++ u.2.1) u.2.2.rows.length

/-- The events the loading stage emits for one `data_files` entry: a
`processing` event; then, when a Table Extractor matches the suffix, one
`loaded` event per unit the Database Loader accepted, and a per-file
`complete` event counting exactly those. -/
def fileBlock (env : Env) (fname : String) : List Event :=
  match unitsFor env fname with
  | none => [Event.processing fname]
  | some units =>
    Event.processing fname ::
      ((units.filter (succUnit env.oracle)).map (mkLoaded fname) ++
        [Event.fileComplete fname (units.filter (succUnit env.oracle)).length])

theorem load_to_duckdb_fst (o : LoadOracle) (s t : String) (g : Grid) (db : DB) :
    (load_to_duckdb o s t g db).1 = (o.schemaOk s && o.tableOk s t) := by
  unfold load_to_duckdb
  by_cases h1 : o.schemaOk s
  · by_cases h2 : o.tableOk s t <;> simp [h1, h2]
  · simp [h1]

theorem loadUnits_events (o : LoadOracle) (fname : String) :
    ∀ (units : List (String × String × Grid)) (db : DB),
      (loadUnits o fname units db).1 =
          (units.filter (succUnit o)).map (mkLoaded fname) ∧
        (loadUnits o fname units db).2.1 = (units.filter (succUnit o)).length
  | [], db => ⟨rfl, rfl⟩
  | u :: rest, db => by
    have ih := loadUnits_events o fname rest (load_to_duckdb o u.1 u.2.1 u.2.2 db).2
    rw [loadUnits]
    cases hs : succUnit o u with
    | false =>
      have hr : (load_to_duckdb o u.1 u.2.1 u.2.2 db).1 = false := by
        rw [load_to_duckdb_fst]
        exact hs
      rw [List.filter_cons_of_neg (by simp [hs])]
      simp only [hr, if_false]
      exact ih
    | true =>
      have hr : (load_to_duckdb o u.1 u.2.1 u.2.2 db).1 = true := by
        rw [load_to_duckdb_fst]
        exact hs
      rw [List.filter_cons_of_pos (by simp [hs])]
      simp only [hr, if_true]
      exact ⟨by rw [List.map_cons, ih.1]; rfl, by rw [List.length_cons, ih.2]⟩

theorem loadLoop_events (env : Env) :
    ∀ (fs : List String) (db : DB),
      (loadLoop env fs db).1 = (fs.map (fileBlock env)).flatten
  | [], _ => rfl
  | fname :: rest, db => by
    rw [loadLoop, List.map_cons, List.flatten_cons]
    cases hu : unitsFor env fname with
    | none =>
      simp only [fileBlock, hu]
      rw [loadLoop_events env rest db]
      rfl
    | some units =>
      simp only [fileBlock, hu]
      rw [loadLoop_events env rest _]
      have he := loadUnits_events env.oracle fname units db
      rw [List.cons_append, List.append_assoc]
      simp only [List.singleton_append]
      rw [he.1, he.2]

theorem loadLoop_count (env : Env) :
    ∀ (fs : List String) (db : DB),
      (loadLoop env fs db).2.1 =
        ((loadLoop env fs db).1.filter isLoadedEvent).length
  | [], _ => rfl
  | fname :: rest, db => by
    rw [loadLoop]
    cases hu : unitsFor env fname with
    | none =>
      simp only
      rw [List.filter_cons_of_neg (by exact Bool.false_ne_true), loadLoop_count env rest db]
    | some units =>
      simp only
      have he := loadUnits_events env.oracle fname units db
      rw [List.filter_cons_of_neg (by exact Bool.false_ne_true), List.filter_append,
        List.filter_cons_of_neg (by exact Bool.false_ne_true), List.length_append,
        ← loadLoop_count env rest _]
      have hl : ((loadUnits env.oracle fname units db).1.filter isLoadedEvent).length =
          (loadUnits env.oracle fname units db).2.1 := by
        rw [he.1, he.2, List.filter_map]
        have : (units.filter (succUnit env.oracle)).filter
            (isLoadedEvent ∘ mkLoaded fname) =
            units.filter (succUnit env.oracle) :=
          List.filter_eq_self.mpr fun u _ => rfl
        rw [this, List.length_map]
      rw [hl]

theorem loadLoop_stage (env : Env) (fs : List String) (db : DB) :
    ∀ e ∈ (loadLoop env fs db).1, e.stage = "loading" := by
  intro e he
  rw [loadLoop_events env fs db] at he
  rw [List.mem_flatten] at he
  obtain ⟨blk, hblk, heb⟩ := he
  rw [List.mem_map] at hblk
  obtain ⟨fname, _, hf⟩ := hblk
  subst hf
  unfold fileBlock at heb
  cases hu : unitsFor env fname with
  | none =>
    rw [hu] at heb
    rcases List.mem_cons.mp heb with h | h
    · rw [h]; rfl
    · simp at h
  | some units =>
    rw [hu] at heb
    rcases List.mem_cons.mp heb with h | h
    · rw [h]; rfl
    · rcases List.mem_append.mp h with h | h
      · rw [List.mem_map] at h
        obtain ⟨u, _, hue⟩ := h
        rw [← hue]; rfl
      · rcases List.mem_cons.mp h with h | h
        · rw [h]; rfl
        · simp at h

/-! ### Claim theorems for the orchestrator -/

/-- C8: if the Link Extractor fails with `ExtractionError`, the run is exactly
one `extracting` event followed by one `error` event carrying the message,
with no `downloading`, `loading` or `complete` event at all. -/
theorem imd_data_loader_error_path (env : Env) (msg : String)
    (h : env.links = .error msg) :
    (imd_data_loader env).1 =
        [Event.extracting "Fetching download links", Event.error msg] ∧
      ((imd_data_loader env).1.filter fun e =>
          e.stage = "downloading" ∨ e.stage = "loading" ∨ e.stage = "complete") =
        [] := by
  unfold imd_data_loader
  rw [h]
  exact ⟨rfl, rfl⟩

/-- A concrete environment whose link extraction fails. -/
def envExtractionFails : Env where
  links := .error "Failed to extract download links: boom"
  dirContents := []
  net := fun _ => false
  workbook := fun _ => none
  csvParse := fun _ => none
  oracle := { schemaOk := fun _ => true, tableOk := fun _ _ => true }
  dbPath := "IMD2025.duckdb"
  db0 := { schemas := [], tables := [] }

/-- Witness for C8 at a concrete failing extraction. -/
theorem imd_data_loader_error_path_witness :
    (imd_data_loader envExtractionFails).1 =
        [Event.extracting "Fetching download links",
          Event.error "Failed to extract download links: boom"] ∧
      ((imd_data_loader envExtractionFails).1.filter fun e =>
          e.stage = "downloading" ∨ e.stage = "loading" ∨ e.stage = "complete") =
        [] :=
  imd_data_loader_error_path envExtractionFails
    "Failed to extract download links: boom" rfl

theorem getD_mem_or_default (l : List Event) (i : Nat) (d : Event) :
    l.getD i d ∈ l ∨ l.getD i d = d := by
  by_cases h : i < l.length
  · left
    rw [List.getD_eq_getElem?_getD, List.getElem?_eq_getElem h]
    exact List.getElem_mem h
  · right
    rw [List.getD_eq_getElem?_getD, List.getElem?_eq_none (by omega)]
    rfl

theorem stage_split (l1 l2 : List Event) (i j : Nat)
    (h1 : ∀ e ∈ l1, e.stage ≠ "loading")
    (h2 : ∀ e ∈ l2, e.stage ≠ "downloading")
    (hi : ((l1 ++ l2).getD i (Event.extracting "")).stage = "downloading")
    (hj : ((l1 ++ l2).getD j (Event.extracting "")).stage = "loading") :
    i < j := by
  have hi1 : i < l1.length := by
    by_contra hge
    push_neg at hge
    have hrw : (l1 ++ l2).getD i (Event.extracting "") =
        l2.getD (i - l1.length) (Event.extracting "") := by
      rw [List.getD_eq_getElem?_getD, List.getElem?_append_right hge,
        List.getD_eq_getElem?_getD]
    rw [hrw] at hi
    rcases getD_mem_or_default l2 (i - l1.length) (Event.extracting "") with hm | hd
    · exact h2 _ hm hi
    · rw [hd] at hi
      exact absurd hi (by decide)
  have hj1 : l1.length ≤ j := by
    by_contra hlt
    push_neg at hlt
    have hrw : (l1 ++ l2).getD j (Event.extracting "") =
        l1.getD j (Event.extracting "") := by
      rw [List.getD_eq_getElem?_getD, List.getElem?_append_left hlt,
        List.getD_eq_getElem?_getD]
    rw [hrw] at hj
    rcases getD_mem_or_default l1 j (Event.extracting "") with hm | hd
    · exact h1 _ hm hj
    · rw [hd] at hj
      exact absurd hj (by decide)
  omega

/-- C9: in every fully-consumed successful run (the link extraction returned
a file list), every `downloading`-stage event carrying a given file name
occurs strictly before every `loading`-stage event carrying that same file
name; and exactly one `complete` event is emitted, as the last event. -/
theorem imd_data_loader_ordering (env : Env) (files : List FileInfo)
    (h : env.links = .ok files) :
    (∀ i j f,
        (((imd_data_loader env).1.getD i (Event.extracting "")).stage = "downloading") →
        (((imd_data_loader env).1.getD j (Event.extracting "")).stage = "loading") →
        ((imd_data_loader env).1.getD i (Event.extracting "")).fileOf = some f →
        ((imd_data_loader env).1.getD j (Event.extracting "")).fileOf = some f →
        i < j) ∧
      ((imd_data_loader env).1.filter fun e => e.stage = "complete").length = 1 ∧
      (imd_data_loader env).1.getLast? =
        some (Event.complete (loadLoop env (dataFilesOf env files) env.db0).2.1
          env.dbPath) := by
  have hevs : (imd_data_loader env).1 =
      (Event.extracting "Fetching download links" ::
          Event.downloadSummary files.length ::
          ((download_file_gen env.net files env.dirContents).1.map fun r =>
            Event.download r.1.1 r.1.2)) ++
        (Event.loadSummary (dataFilesOf env files).length ::
          ((loadLoop env (dataFilesOf env files) env.db0).1 ++
            [Event.complete (loadLoop env (dataFilesOf env files) env.db0).2.1
              env.dbPath])) := by
    unfold imd_data_loader
    rw [h]
    rfl
  have hl1 : ∀ e ∈ Event.extracting "Fetching download links" ::
      Event.downloadSummary files.length ::
      ((download_file_gen env.net files env.dirContents).1.map fun r =>
        Event.download r.1.1 r.1.2), e.stage ≠ "loading" := by
    intro e he
    rcases List.mem_cons.mp he with he | he
    · rw [he]
      exact (by decide : ("extracting" : String) ≠ "loading")
    · rcases List.mem_cons.mp he with he | he
      · rw [he]
        exact (by decide : ("downloading" : String) ≠ "loading")
      · rw [List.mem_map] at he
        obtain ⟨r, _, hre⟩ := he
        rw [← hre]
        exact (by decide : ("downloading" : String) ≠ "loading")
  have hl2 : ∀ e ∈ Event.loadSummary (dataFilesOf env files).length ::
      ((loadLoop env (dataFilesOf env files) env.db0).1 ++
        [Event.complete (loadLoop env (dataFilesOf env files) env.db0).2.1
          env.dbPath]), e.stage ≠ "downloading" := by
    intro e he
    rcases List.mem_cons.mp he with he | he
    · rw [he]
      exact (by decide : ("loading" : String) ≠ "downloading")
    · rcases List.mem_append.mp he with he | he
      · rw [loadLoop_stage env _ _ e he]
        exact (by decide : ("loading" : String) ≠ "downloading")
      · rcases List.mem_cons.mp he with he | he
        · rw [he]
          exact (by decide : ("complete" : String) ≠ "downloading")
        · simp at he
  refine ⟨?_, ?_, ?_⟩
  · intro i j f hsi hsj _ _
    rw [hevs] at hsi hsj
    exact stage_split _ _ i j hl1 hl2 hsi hsj
  · rw [hevs, List.filter_append]
    rw [List.length_append]
    have hc1 : (List.filter (fun e => decide (e.stage = "complete"))
        (Event.extracting "Fetching download links" ::
          Event.downloadSummary files.length ::
          ((download_file_gen env.net files env.dirContents).1.map fun r =>
            Event.download r.1.1 r.1.2))) = [] := by
      rw [List.filter_eq_nil_iff]
      intro e he
      rcases List.mem_cons.mp he with h' | h'
      · rw [h']
        exact (by decide : ¬(decide (("extracting" : String) = "complete") = true))
      · rcases List.mem_cons.mp h' with h' | h'
        · rw [h']
          exact (by decide : ¬(decide (("downloading" : String) = "complete") = true))
        · rw [List.mem_map] at h'
          obtain ⟨r, _, hre⟩ := h'
          rw [← hre]
          exact (by decide : ¬(decide (("downloading" : String) = "complete") = true))
    have hc2 : (List.filter (fun e => decide (e.stage = "complete"))
        (Event.loadSummary (dataFilesOf env files).length ::
          ((loadLoop env (dataFilesOf env files) env.db0).1 ++
            [Event.complete (loadLoop env (dataFilesOf env files) env.db0).2.1
              env.dbPath]))) =
        [Event.complete (loadLoop env (dataFilesOf env files) env.db0).2.1
          env.dbPath] := by
      rw [List.filter_cons_of_neg
        (by exact (by decide : ¬(decide (("loading" : String) = "complete") = true))),
        List.filter_append]
      have hmid : (List.filter (fun e => decide (e.stage = "complete"))
          (loadLoop env (dataFilesOf env files) env.db0).1) = [] := by
        rw [List.filter_eq_nil_iff]
        intro e he
        rw [loadLoop_stage env _ _ e he]
        exact (by decide : ¬(decide (("loading" : String) = "complete") = true))
      rw [hmid]
      rfl
    rw [hc1, hc2]
    rfl
  · rw [hevs]
    have : (Event.extracting "Fetching download links" ::
        Event.downloadSummary files.length ::
        ((download_file_gen env.net files env.dirContents).1.map fun r =>
          Event.download r.1.1 r.1.2)) ++
        (Event.loadSummary (dataFilesOf env files).length ::
          ((loadLoop env (dataFilesOf env files) env.db0).1 ++
            [Event.complete (loadLoop env (dataFilesOf env files) env.db0).2.1
              env.dbPath])) =
        ((Event.extracting "Fetching download links" ::
          Event.downloadSummary files.length ::
          ((download_file_gen env.net files env.dirContents).1.map fun r =>
            Event.download r.1.1 r.1.2)) ++
          (Event.loadSummary (dataFilesOf env files).length ::
            (loadLoop env (dataFilesOf env files) env.db0).1)) ++
          [Event.complete (loadLoop env (dataFilesOf env files) env.db0).2.1
            env.dbPath] := by
      rw [List.append_assoc]
      rfl
    rw [this, List.getLast?_concat]

/-- A concrete successful run: one `.csv` file already present in the
directory and one `.xlsx` file whose download fails. -/
def envOkRun : Env where
  links := .ok [{ url := "u", filename := "a.csv" }, { url := "v", filename := "f.xlsx" }]
  dirContents := ["a.csv"]
  net := fun _ => false
  workbook := fun _ => none
  csvParse := fun _ => some { cols := ["c"], rows := [["v"]] }
  oracle := { schemaOk := fun _ => true, tableOk := fun _ _ => true }
  dbPath := "IMD2025.duckdb"
  db0 := { schemas := [], tables := [] }

/-- Witness for C9 at a concrete run: the `downloading` event for `"a.csv"`
(index 2) precedes its `processing` event (index 5), and there is exactly one
`complete` event. -/
theorem imd_data_loader_ordering_witness :
    2 < 5 ∧
      ((imd_data_loader envOkRun).1.filter fun e => e.stage = "complete").length = 1 :=
  ⟨(imd_data_loader_ordering envOkRun
        [{ url := "u", filename := "a.csv" }, { url := "v", filename := "f.xlsx" }]
        rfl).1
      2 5 "a.csv" (by decide) (by decide) (by decide) (by decide),
    (imd_data_loader_ordering envOkRun
        [{ url := "u", filename := "a.csv" }, { url := "v", filename := "f.xlsx" }]
        rfl).2.1⟩

/-- The loading-stage events of a successful run. -/
def loadEventsOf (env : Env) (files : List FileInfo) : List Event :=
  (loadLoop env (dataFilesOf env files) env.db0).1

/-- The grand total the final `complete` event reports. -/
def totalOf (env : Env) (files : List FileInfo) : Nat :=
  (loadLoop env (dataFilesOf env files) env.db0).2.1

theorem imd_ok_events (env : Env) (files : List FileInfo)
    (h : env.links = .ok files) :
    (imd_data_loader env).1 =
      (Event.extracting "Fetching download links" ::
          Event.downloadSummary files.length ::
          ((download_file_gen env.net files env.dirContents).1.map fun r =>
            Event.download r.1.1 r.1.2)) ++
        (Event.loadSummary (dataFilesOf env files).length ::
          (loadEventsOf env files ++
            [Event.complete (totalOf env files) env.dbPath])) := by
  unfold imd_data_loader
  rw [h]
  rfl

theorem filter_loaded_imd (env : Env) (files : List FileInfo)
    (h : env.links = .ok files) :
    (imd_data_loader env).1.filter isLoadedEvent =
      (loadEventsOf env files).filter isLoadedEvent := by
  rw [imd_ok_events env files h, List.filter_append]
  have hA : (List.filter isLoadedEvent
      (Event.extracting "Fetching download links" ::
        Event.downloadSummary files.length ::
        ((download_file_gen env.net files env.dirContents).1.map fun r =>
          Event.download r.1.1 r.1.2))) = [] := by
    rw [List.filter_eq_nil_iff]
    intro e he
    rcases List.mem_cons.mp he with h' | h'
    · rw [h']
      exact Bool.false_ne_true
    · rcases List.mem_cons.mp h' with h' | h'
      · rw [h']
        exact Bool.false_ne_true
      · rw [List.mem_map] at h'
        obtain ⟨r, _, hre⟩ := h'
        rw [← hre]
        exact Bool.false_ne_true
  rw [hA, List.nil_append, List.filter_cons_of_neg Bool.false_ne_true,
    List.filter_append]
  have hend : (List.filter isLoadedEvent
      [Event.complete (totalOf env files) env.dbPath]) = [] := by
    rw [List.filter_eq_nil_iff]
    intro e he
    rcases List.mem_cons.mp he with h' | h'
    · rw [h']
      exact Bool.false_ne_true
    · simp at h'
  rw [hend, List.append_nil]

/-- C10: in every fully-consumed successful run, the `total_tables` of the
final `complete` event equals the number of `loaded` events of the run; the
loading stage decomposes per `data_files` entry into a `processing` event,
one `loaded` event per unit the Database Loader accepted, and a per-file
`complete` event whose `tables_loaded` counts exactly those `loaded` events
(`fileBlock`); and the Database Loader's success bit is exactly the
`succUnit` predicate used there — a failed load produces no event. -/
theorem imd_data_loader_counts (env : Env) (files : List FileInfo)
    (h : env.links = .ok files) :
    (imd_data_loader env).1.getLast? =
        some (Event.complete
          (((imd_data_loader env).1.filter isLoadedEvent).length) env.dbPath) ∧
      loadEventsOf env files = ((dataFilesOf env files).map (fileBlock env)).flatten ∧
      (∀ (o : LoadOracle) (u : String × String × Grid) (db : DB),
        (load_to_duckdb o u.1 u.2.1 u.2.2 db).1 = succUnit o u) := by
  refine ⟨?_, loadLoop_events env _ _, fun o u db => load_to_duckdb_fst o u.1 u.2.1 u.2.2 db⟩
  have hcount : ((imd_data_loader env).1.filter isLoadedEvent).length =
      totalOf env files := by
    rw [filter_loaded_imd env files h]
    exact (loadLoop_count env _ _).symm
  rw [hcount, imd_ok_events env files h]
  have hassoc : (Event.extracting "Fetching download links" ::
      Event.downloadSummary files.length ::
      ((download_file_gen env.net files env.dirContents).1.map fun r =>
        Event.download r.1.1 r.1.2)) ++
      (Event.loadSummary (dataFilesOf env files).length ::
        (loadEventsOf env files ++
          [Event.complete (totalOf env files) env.dbPath])) =
      ((Event.extracting "Fetching download links" ::
        Event.downloadSummary files.length ::
        ((download_file_gen env.net files env.dirContents).1.map fun r =>
          Event.download r.1.1 r.1.2)) ++
        (Event.loadSummary (dataFilesOf env files).length ::
          loadEventsOf env files)) ++
        [Event.complete (totalOf env files) env.dbPath] := by
    rw [List.append_assoc]
    rfl
  rw [hassoc, List.getLast?_concat]

/-- Witness for C10's conditional statement at a concrete successful run. -/
theorem imd_data_loader_counts_witness :
    (imd_data_loader envOkRun).1.getLast? =
      some (Event.complete
        (((imd_data_loader envOkRun).1.filter isLoadedEvent).length)
        envOkRun.dbPath) :=
  (imd_data_loader_counts envOkRun
      [{ url := "u", filename := "a.csv" }, { url := "v", filename := "f.xlsx" }]
      rfl).1

/-- A concrete environment in which the single file's download fails. -/
def envFailedDownload : Env where
  links := .ok [{ url := "https://h/f.xlsx", filename := "f.xlsx" }]
  dirContents := []
  net := fun _ => false
  workbook := fun _ => none
  csvParse := fun _ => none
  oracle := { schemaOk := fun _ => true, tableOk := fun _ _ => true }
  dbPath := "IMD2025.duckdb"
  db0 := { schemas := [], tables := [] }

/-- C1 counterexample: a file whose download yields the `failed` status is
*not* excluded from the load stage — the run still emits a `processing` event
for it and dispatches the spreadsheet Table Extractor on it, because
`data_files` membership tests only the filename suffix, never the download
status. -/
theorem imd_data_loader_processes_failed_file :
    (imd_data_loader envFailedDownload).1 =
        [Event.extracting "Fetching download links", Event.downloadSummary 1,
          Event.download "failed" "f.xlsx", Event.loadSummary 1,
          Event.processing "f.xlsx", Event.fileComplete "f.xlsx" 0,
          Event.complete 0 "IMD2025.duckdb"] ∧
      Event.download "failed" "f.xlsx" ∈ (imd_data_loader envFailedDownload).1 ∧
      Event.processing "f.xlsx" ∈ (imd_data_loader envFailedDownload).1 ∧
      unitsFor envFailedDownload "f.xlsx" =
        some (process_excel_file (envFailedDownload.workbook "f.xlsx")
          (path_stem "f.xlsx")) := by
  refine ⟨by decide, by decide, by decide, by decide⟩

theorem filter_processing_blocks (env : Env) :
    ∀ fs : List String,
      ((fs.map (fileBlock env)).flatten.filter isProcessingEvent) =
        fs.map Event.processing
  | [] => rfl
  | f :: rest => by
    rw [List.map_cons, List.flatten_cons, List.filter_append,
      filter_processing_blocks env rest, List.map_cons]
    congr 1
    unfold fileBlock
    cases hu : unitsFor env f with
    | none => rfl
    | some units =>
      rw [List.filter_cons_of_pos rfl, List.filter_append]
      have h1 : (List.filter isProcessingEvent
          ((units.filter (succUnit env.oracle)).map (mkLoaded f))) = [] := by
        rw [List.filter_eq_nil_iff]
        intro e he
        rw [List.mem_map] at he
        obtain ⟨u, _, hue⟩ := he
        rw [← hue]
        exact Bool.false_ne_true
      have h2 : (List.filter isProcessingEvent
          [Event.fileComplete f (units.filter (succUnit env.oracle)).length]) = [] := by
        rw [List.filter_eq_nil_iff]
        intro e he
        rcases List.mem_cons.mp he with h' | h'
        · rw [h']
          exact Bool.false_ne_true
        · simp at h'
      rw [h1, h2]
      rfl

/-- C1 (amended): a file whose download yielded the `failed` status is *not*
excluded from the load stage. The loading phase emits exactly one
`processing` event per `data_files` entry (and runs the matching Table
Extractor on it), and `data_files` collects every path yielded by the File
Fetcher — `exists`, `downloaded` or `failed` alike — whose filename suffix is
`.xlsx` or `.csv`: membership is decided solely by the suffix, never by the
download status. -/
theorem imd_data_loader_processing_by_suffix (env : Env) (files : List FileInfo)
    (h : env.links = .ok files) :
    (imd_data_loader env).1.filter isProcessingEvent =
        (dataFilesOf env files).map Event.processing ∧
      dataFilesOf env files =
        ((download_file_gen env.net files env.dirContents).1.map fun r => r.1.2).filter
          (fun n => path_suffix n = ".xlsx" || path_suffix n = ".csv") := by
  refine ⟨?_, rfl⟩
  rw [imd_ok_events env files h, List.filter_append]
  have hA : (List.filter isProcessingEvent
      (Event.extracting "Fetching download links" ::
        Event.downloadSummary files.length ::
        ((download_file_gen env.net files env.dirContents).1.map fun r =>
          Event.download r.1.1 r.1.2))) = [] := by
    rw [List.filter_eq_nil_iff]
    intro e he
    rcases List.mem_cons.mp he with h' | h'
    · rw [h']
      exact Bool.false_ne_true
    · rcases List.mem_cons.mp h' with h' | h'
      · rw [h']
        exact Bool.false_ne_true
      · rw [List.mem_map] at h'
        obtain ⟨r, _, hre⟩ := h'
        rw [← hre]
        exact Bool.false_ne_true
  rw [hA, List.nil_append, List.filter_cons_of_neg Bool.false_ne_true,
    List.filter_append]
  have hend : (List.filter isProcessingEvent
      [Event.complete (totalOf env files) env.dbPath]) = [] := by
    rw [List.filter_eq_nil_iff]
    intro e he
    rcases List.mem_cons.mp he with h' | h'
    · rw [h']
      exact Bool.false_ne_true
    · simp at h'
  rw [hend, List.append_nil]
  show (loadEventsOf env files).filter isProcessingEvent = _
  rw [loadEventsOf, loadLoop_events env _ _]
  exact filter_processing_blocks env _

/-- Witness for the amended C1 at the concrete failed-download run. -/
theorem imd_data_loader_processing_by_suffix_witness :
    (imd_data_loader envFailedDownload).1.filter isProcessingEvent =
      (dataFilesOf envFailedDownload
          [{ url := "https://h/f.xlsx", filename := "f.xlsx" }]).map
        Event.processing :=
  (imd_data_loader_processing_by_suffix envFailedDownload
      [{ url := "https://h/f.xlsx", filename := "f.xlsx" }] rfl).1

end ImdLoader
